import Mathlib

/-!
Verification of the XSTOOLs memory-access protocol core (`XsMemIo` in
`src/XstoolsApi/xsmemio.py`) against its natural-language specification.

The Python class is shallowly embedded: bit arrays become `List Bool`
(index 0 is bit 0, the first bit transmitted), methods become pure
functions that additionally return the list of transport calls they
issue, and Python failures (assertion errors, domain errors of the
bit-array constructor) become values of an explicit error type.

The classes `XsBitarray` and `XsHostIo` (with its `send_rcv` transport
method) are part of the repository but their sources are not available
here; they are modelled from the specification where noted.
-/

namespace XSTOOLs

/-- Modelled from the spec: the error taxonomy of section 7.  The code
itself signals failures with Python `assert` and with the domain error
of the bit-array constructor; the spec names these conditions
`OutOfRange` (value does not fit its declared bit width) and
`ConfigurationError` (zero width discovered by the SIZE transaction).
`AssertionFailed` stands for any other Python assertion failure. -/
inductive XsError where
  | OutOfRange
  | ConfigurationError
  | AssertionFailed
  deriving DecidableEq, Repr

/-- A bit array: index 0 is bit 0, the first bit transmitted. -/
abbrev XsBitarray := List Bool

/-- Bits of `XsBitarray(s)` built from a Python bit string: character i
of the string becomes bit i. -/
def xsBitarrayOfString (s : String) : XsBitarray :=
  s.toList.map (fun c => c = '1')

/-- Modelled from the spec: the bit pattern produced by
`XsBitarray.from_int(value, width)` for an in-range value — exactly
`width` bits representing `value`, bit 0 first. -/
def from_int_bits (v : Int) (w : Nat) : XsBitarray :=
  (List.range w).map (fun i => v.toNat.testBit i)

/-- Modelled from the spec: `XsBitarray.from_int(value, width)`
(`from_unsigned` in the spec) fails with a domain error — `OutOfRange`
in the spec taxonomy — if `value` is negative or `value ≥ 2^width`,
and otherwise produces exactly `width` bits representing `value`. -/
def from_int (v : Int) (w : Nat) : Except XsError XsBitarray :=
  if v < 0 ∨ (2 : Int) ^ w ≤ v then .error .OutOfRange
  else .ok (from_int_bits v w)

/-- Modelled from the spec: `XsBitarray.to_int` (`to_unsigned` in the
spec), the inverse of `from_int`: bit i contributes `2^i`. -/
def to_int : XsBitarray → Nat
  | [] => 0
  | b :: rest => (if b then 1 else 0) + 2 * to_int rest

/-- One call to the transport method `XsHostIo.send_rcv`. -/
structure SendRcvCall where
  payload : XsBitarray
  num_result_bits : Nat
  deriving DecidableEq, Repr

/-- Modelled from the spec: the transport (`send_rcv`, an external
collaborator) transmits a payload and samples the requested number of
response bits; embedded as a function from payload and requested bit
count to the sampled response bits. -/
def Transport : Type := XsBitarray → Nat → XsBitarray

/-- `_NOP_OPCODE = XsBitarray('00'[::-1])`. -/
def NOP_OPCODE : XsBitarray := xsBitarrayOfString "00" |>.reverse

/-- `_READ_OPCODE = XsBitarray('11'[::-1])`. -/
def READ_OPCODE : XsBitarray := xsBitarrayOfString "11" |>.reverse

/-- `_WRITE_OPCODE = XsBitarray('10'[::-1])`. -/
def WRITE_OPCODE : XsBitarray := xsBitarrayOfString "10" |>.reverse

/-- `_SIZE_OPCODE = XsBitarray('01'[::-1])`. -/
def SIZE_OPCODE : XsBitarray := xsBitarrayOfString "01" |>.reverse

/-- `_SIZE_RESULT_LENGTH = 16`. -/
def SIZE_RESULT_LENGTH : Nat := 16

/-- The state of an `XsMemIo` object after `__init__`: the two bus
widths discovered by the SIZE transaction. -/
structure XsMemIo where
  address_width : Nat
  data_width : Nat
  deriving DecidableEq, Repr

/-- `XsMemIo._get_mem_widths`: send the SIZE opcode, request
`_SIZE_RESULT_LENGTH + SKIP_CYCLES` result bits, drop the skipped
cycles, and decode the two halves of the remainder.  Returns the list
of transport calls issued together with `(address_width, data_width)`. -/
def get_mem_widths (tr : Transport) : List SendRcvCall × (Nat × Nat) :=
  let SKIP_CYCLES := 1
  let params := tr SIZE_OPCODE (SIZE_RESULT_LENGTH + SKIP_CYCLES)
  let params := params.drop SKIP_CYCLES
  let address_width := to_int (params.take (SIZE_RESULT_LENGTH / 2))
  let data_width := to_int (params.drop (SIZE_RESULT_LENGTH / 2))
  ([⟨SIZE_OPCODE, SIZE_RESULT_LENGTH + SKIP_CYCLES⟩], (address_width, data_width))

/-- `XsMemIo.__init__`: discover the widths and require both nonzero.
Modelled from the spec: the Python `assert self.address_width != 0` /
`assert self.data_width != 0` failures surface as `ConfigurationError`,
the name the spec taxonomy gives to this condition. -/
def init (tr : Transport) : Except XsError XsMemIo :=
  let w := (get_mem_widths tr).2
  if w.1 = 0 ∨ w.2 = 0 then .error .ConfigurationError
  else .ok ⟨w.1, w.2⟩

/-- The `itertools.izip(*[iter(result)] * data_width)` grouping idiom
of `XsMemIo.read`: partition a list into consecutive groups of `k`
elements, stopping when no full group remains.  `fuel` bounds the
recursion; `grouper` instantiates it with the list length. -/
def grouperAux (k : Nat) : Nat → List Bool → List (List Bool)
  | 0, _ => []
  | fuel + 1, l =>
      if 0 < k ∧ k ≤ l.length then l.take k :: grouperAux k fuel (l.drop k)
      else []

/-- Partition into consecutive groups of `k` bits, dropping any final
incomplete group (as `izip` does). -/
def grouper (k : Nat) (l : List Bool) : List (List Bool) :=
  grouperAux k l.length l

/-- Result of `XsMemIo.read`: a single bit array when
`num_of_reads == 1`, otherwise a list of `data_width`-bit words. -/
inductive ReadResult where
  | single (w : XsBitarray)
  | many (ws : List XsBitarray)
  deriving DecidableEq, Repr

/-- `XsMemIo.read`: build the payload `READ_OPCODE ++ address`, request
`data_width * (num_of_reads + 1)` result bits, drop the first
`data_width` bits ("the first data value which is crap"), and return a
single bit array (one read) or the partition into `data_width`-bit
words.  Returns the instance, the transport calls issued, and the
result or error. -/
def read (m : XsMemIo) (tr : Transport) (begin_address : Int)
    (num_of_reads : Nat) :
    XsMemIo × List SendRcvCall × Except XsError ReadResult :=
  match from_int begin_address m.address_width with
  | .error e => (m, [], .error e)
  | .ok addrBits =>
      let payload := READ_OPCODE ++ addrBits
      let n := m.data_width * (num_of_reads + 1)
      let result := tr payload n
      let result := result.drop m.data_width
      if num_of_reads = 1 then
        (m, [⟨payload, n⟩], .ok (.single result))
      else
        (m, [⟨payload, n⟩], .ok (.many (grouper m.data_width result)))

/-- A datum passed to `XsMemIo.write`: a plain integer (auto-encoded to
`data_width` bits) or an already-encoded bit array. -/
inductive WriteDatum where
  | int (n : Int)
  | bits (b : XsBitarray)
  deriving DecidableEq, Repr

/-- The per-datum step of `XsMemIo.write`: integers are converted with
`XsBitarray.from_int(d, data_width)`; anything else is assumed to be a
bit array and concatenated as is. -/
def encodeDatum (dw : Nat) : WriteDatum → Except XsError XsBitarray
  | .int n => from_int n dw
  | .bits b => .ok b

/-- The `for d in data` loop of `XsMemIo.write`: extend the payload
accumulated so far with the encoding of each datum in order, stopping
at the first encoding error. -/
def writeLoop (dw : Nat) (acc : XsBitarray) :
    List WriteDatum → Except XsError XsBitarray
  | [] => .ok acc
  | d :: rest =>
      match encodeDatum dw d with
      | .error e => .error e
      | .ok b => writeLoop dw (acc ++ b) rest

/-- `XsMemIo.write`: build the payload `WRITE_OPCODE ++ address ++
data…`, check `assert payload.length() > WRITE_OPCODE.length()`, and
send it with `num_result_bits = 0`.  Returns the instance, the
transport calls issued, and unit or error. -/
def write (m : XsMemIo) (tr : Transport) (begin_address : Int)
    (data : List WriteDatum) :
    XsMemIo × List SendRcvCall × Except XsError Unit :=
  match from_int begin_address m.address_width with
  | .error e => (m, [], .error e)
  | .ok addrBits =>
      match writeLoop m.data_width (WRITE_OPCODE ++ addrBits) data with
      | .error e => (m, [], .error e)
      | .ok payload =>
          if payload.length > WRITE_OPCODE.length then
            let _ := tr payload 0
            (m, [⟨payload, 0⟩], .ok ())
          else (m, [], .error .AssertionFailed)

/-- An operation performed on an initialized instance, for stating
frame properties over call sequences. -/
inductive Op where
  | rd (addr : Int) (count : Nat)
  | wr (addr : Int) (data : List WriteDatum)

/-- The instance state after one operation (the first component of
`read`/`write`). -/
def step (m : XsMemIo) (tr : Transport) : Op → XsMemIo
  | .rd a c => (read m tr a c).1
  | .wr a d => (write m tr a d).1

/-- The instance state after a sequence of operations. -/
def run (m : XsMemIo) : List (Transport × Op) → XsMemIo
  | [] => m
  | (tr, op) :: rest => run (step m tr op) rest

/-- A concrete instance with 8-bit address and data buses, used for
concrete evaluations. -/
def mem8 : XsMemIo := ⟨8, 8⟩

/-- A stub transport answering every request with all-one bits of
exactly the requested length. -/
def stubTrue : Transport := fun _ n => List.replicate n true

/-- A stub transport whose response stream starts with the given bits
and is padded with zero bits to the requested length. -/
def padTo (l : XsBitarray) : Transport :=
  fun _ n => l.take n ++ List.replicate (n - l.length) false

/-- A stub transport whose SIZE response is 17 bits: skip bit 0, an
8-bit field encoding 16, then an 8-bit field encoding 8. -/
def stub17 : Transport :=
  padTo ([false] ++ from_int_bits 16 8 ++ from_int_bits 8 8)

/-- A stub transport whose SIZE response is 25 bits: skip bit 0, a
12-bit field encoding 16, then a 12-bit field encoding 8. -/
def stub25 : Transport :=
  padTo ([false] ++ from_int_bits 16 12 ++ from_int_bits 8 12)

/-- A stub transport answering every request with all-zero bits, so
that width discovery decodes both widths as zero. -/
def stubZero : Transport := fun _ n => List.replicate n false

/-- The read-discard example response for a 2-bit data bus: a garbage
word `[1,1]` followed by the words `W1 = [0,1]`, `W2 = [1,0]`,
`W3 = [0,0]`. -/
def respExample : XsBitarray :=
  [true, true] ++ [false, true] ++ [true, false] ++ [false, false]

/-! ## Helper lemmas -/

theorem from_int_bits_length (v : Int) (w : Nat) :
    (from_int_bits v w).length = w := by
  simp [from_int_bits]

theorem from_int_ok_eq {v : Int} {w : Nat} {b : XsBitarray}
    (h : from_int v w = .ok b) : b = from_int_bits v w := by
  unfold from_int at h
  split at h
  · exact absurd h (by simp)
  · injection h with h2
    exact h2.symm

theorem padTo_length (l : XsBitarray) (p : XsBitarray) (n : Nat) :
    (padTo l p n).length = n := by
  simp [padTo]
  omega

theorem stubTrue_length (p : XsBitarray) (n : Nat) :
    (stubTrue p n).length = n := by
  simp [stubTrue]

theorem grouperAux_length (k : Nat) (hk : 0 < k) :
    ∀ (n fuel : Nat) (l : List Bool), l.length = k * n → l.length ≤ fuel →
      (grouperAux k fuel l).length = n := by
  intro n
  induction n with
  | zero =>
      intro fuel l hl hf
      have hl0 : l.length = 0 := by simpa using hl
      cases fuel with
      | zero => simp [grouperAux]
      | succ f =>
          have hcond : ¬(0 < k ∧ k ≤ l.length) := by
            rintro ⟨_, hkl⟩
            omega
          simp [grouperAux, hcond]
  | succ n ih =>
      intro fuel l hl hf
      rw [Nat.mul_succ] at hl
      cases fuel with
      | zero =>
          exfalso
          omega
      | succ f =>
          have hcond : 0 < k ∧ k ≤ l.length := ⟨hk, by omega⟩
          simp only [grouperAux, if_pos hcond, List.length_cons]
          rw [ih f (l.drop k) (by rw [List.length_drop]; omega)
                (by rw [List.length_drop]; omega)]

theorem grouperAux_get (k : Nat) (hk : 0 < k) :
    ∀ (n fuel : Nat) (l : List Bool) (i : Nat),
      l.length = k * n → l.length ≤ fuel → i < n →
      (grouperAux k fuel l)[i]? = some ((l.drop (k * i)).take k) := by
  intro n
  induction n with
  | zero =>
      intro fuel l i _ _ hi
      exact absurd hi (by omega)
  | succ n ih =>
      intro fuel l i hl hf hi
      rw [Nat.mul_succ] at hl
      cases fuel with
      | zero =>
          exfalso
          omega
      | succ f =>
          have hcond : 0 < k ∧ k ≤ l.length := ⟨hk, by omega⟩
          simp only [grouperAux, if_pos hcond]
          cases i with
          | zero => simp
          | succ j =>
              rw [List.getElem?_cons_succ]
              rw [ih f (l.drop k) j (by rw [List.length_drop]; omega)
                    (by rw [List.length_drop]; omega) (by omega)]
              rw [List.drop_drop, Nat.mul_succ, Nat.add_comm (k * j) k]

theorem grouper_length (k n : Nat) (hk : 0 < k) (l : List Bool)
    (hl : l.length = k * n) : (grouper k l).length = n :=
  grouperAux_length k hk n l.length l hl (le_refl _)

theorem grouper_get (k n : Nat) (hk : 0 < k) (l : List Bool)
    (hl : l.length = k * n) (i : Nat) (hi : i < n) :
    (grouper k l)[i]? = some ((l.drop (k * i)).take k) :=
  grouperAux_get k hk n l.length l i hl (le_refl _) hi

theorem encodeDatum_error_eq (dw : Nat) (d : WriteDatum) (e : XsError)
    (h : encodeDatum dw d = .error e) : e = .OutOfRange := by
  cases d with
  | int n =>
      by_cases hc : n < 0 ∨ (2 : Int) ^ dw ≤ n
      · simp [encodeDatum, from_int, hc] at h
        exact h.symm
      · simp [encodeDatum, from_int, hc] at h
  | bits b => simp [encodeDatum] at h

theorem writeLoop_ok_ints (dw : Nat) (ws : List Int) :
    ∀ acc : XsBitarray,
      (∀ w ∈ ws, ¬(w < 0 ∨ (2 : Int) ^ dw ≤ w)) →
      writeLoop dw acc (ws.map WriteDatum.int) =
        .ok (acc ++ (ws.map (fun w => from_int_bits w dw)).flatten) := by
  induction ws with
  | nil => intro acc _; simp [writeLoop]
  | cons w ws ih =>
      intro acc h
      have hw : ¬(w < 0 ∨ (2 : Int) ^ dw ≤ w) := h w (by simp)
      simp only [List.map_cons, writeLoop, encodeDatum, from_int, if_neg hw]
      rw [ih (acc ++ from_int_bits w dw) (fun v hv => h v (by simp [hv]))]
      simp [List.append_assoc]

theorem writeLoop_error (dw : Nat) (data : List WriteDatum) :
    ∀ acc : XsBitarray,
      (∃ w, WriteDatum.int w ∈ data ∧ (w < 0 ∨ (2 : Int) ^ dw ≤ w)) →
      writeLoop dw acc data = .error .OutOfRange := by
  induction data with
  | nil =>
      intro acc h
      obtain ⟨w, hw, _⟩ := h
      exact absurd hw (by simp)
  | cons d ds ih =>
      intro acc h
      obtain ⟨w, hw, hbad⟩ := h
      rcases List.mem_cons.mp hw with hd | hds
      · rw [← hd]
        simp [writeLoop, encodeDatum, from_int, if_pos hbad]
      · cases hstep : encodeDatum dw d with
        | error e =>
            rw [encodeDatum_error_eq dw d e hstep] at hstep
            simp [writeLoop, hstep]
        | ok b =>
            simp only [writeLoop, hstep]
            exact ih (acc ++ b) ⟨w, hds, hbad⟩

theorem writeLoop_ok_extends (dw : Nat) (data : List WriteDatum) :
    ∀ (acc p : XsBitarray), writeLoop dw acc data = .ok p →
      ∃ t, p = acc ++ t := by
  induction data with
  | nil =>
      intro acc p h
      simp [writeLoop] at h
      exact ⟨[], by simp [h.symm]⟩
  | cons d ds ih =>
      intro acc p h
      cases hstep : encodeDatum dw d with
      | error e => simp [writeLoop, hstep] at h
      | ok b =>
          simp only [writeLoop, hstep] at h
          obtain ⟨t, ht⟩ := ih (acc ++ b) p h
          exact ⟨b ++ t, by rw [ht, List.append_assoc]⟩

theorem read_fst (m : XsMemIo) (tr : Transport) (a : Int) (c : Nat) :
    (read m tr a c).1 = m := by
  unfold read
  cases from_int a m.address_width with
  | error e => rfl
  | ok b =>
      simp only []
      split <;> rfl

theorem write_fst (m : XsMemIo) (tr : Transport) (a : Int)
    (data : List WriteDatum) : (write m tr a data).1 = m := by
  unfold write
  cases from_int a m.address_width with
  | error e => rfl
  | ok b =>
      simp only []
      cases writeLoop m.data_width (WRITE_OPCODE ++ b) data with
      | error e => rfl
      | ok p =>
          simp only []
          split <;> rfl

theorem step_fst (m : XsMemIo) (tr : Transport) (op : Op) :
    step m tr op = m := by
  cases op with
  | rd a c => exact read_fst m tr a c
  | wr a d => exact write_fst m tr a d

theorem run_const (ops : List (Transport × Op)) :
    ∀ m : XsMemIo, run m ops = m := by
  induction ops with
  | nil => intro m; rfl
  | cons p rest ih =>
      intro m
      show run (step m p.1 p.2) rest = m
      rw [step_fst, ih]

theorem from_int_error_eq {v : Int} {w : Nat} {e : XsError}
    (h : from_int v w = .error e) : e = .OutOfRange := by
  unfold from_int at h
  split at h
  · injection h with h2
    exact h2.symm
  · exact absurd h (by simp)

theorem read_calls (m : XsMemIo) (tr : Transport) (addr : Int)
    (count : Nat) :
    (read m tr addr count).2.1 = [] ∨
    ∃ b, (read m tr addr count).2.1 =
      [⟨READ_OPCODE ++ b, m.data_width * (count + 1)⟩] := by
  unfold read
  cases from_int addr m.address_width with
  | error e => exact Or.inl rfl
  | ok b =>
      refine Or.inr ⟨b, ?_⟩
      simp only []
      split <;> rfl

theorem write_calls (m : XsMemIo) (tr : Transport) (addr : Int)
    (data : List WriteDatum) :
    (write m tr addr data).2.1 = [] ∨
    ∃ b t, (write m tr addr data).2.1 = [⟨(WRITE_OPCODE ++ b) ++ t, 0⟩] := by
  unfold write
  cases from_int addr m.address_width with
  | error e => exact Or.inl rfl
  | ok b =>
      simp only []
      cases hloop : writeLoop m.data_width (WRITE_OPCODE ++ b) data with
      | error e => exact Or.inl rfl
      | ok p =>
          obtain ⟨t, ht⟩ :=
            writeLoop_ok_extends m.data_width data (WRITE_OPCODE ++ b) p hloop
          simp only []
          split
          · exact Or.inr ⟨b, t, by rw [← ht]⟩
          · exact Or.inl rfl

/-! ## Claim theorems -/

/-- C3: width discovery requests a fixed-length response of exactly one
skip bit followed by two equal-length fields (`SIZE_RESULT_LENGTH + 1`
bits in all), discards the skip bit, splits the remaining bits exactly
in half, and decodes the first half as `address_width` and the second
half as `data_width`. -/
theorem C3_size_split (tr : Transport)
    (h : (tr SIZE_OPCODE (SIZE_RESULT_LENGTH + 1)).length =
      SIZE_RESULT_LENGTH + 1) :
    get_mem_widths tr =
      ([⟨SIZE_OPCODE, SIZE_RESULT_LENGTH + 1⟩],
       (to_int (((tr SIZE_OPCODE (SIZE_RESULT_LENGTH + 1)).drop 1).take
          (SIZE_RESULT_LENGTH / 2)),
        to_int (((tr SIZE_OPCODE (SIZE_RESULT_LENGTH + 1)).drop 1).drop
          (SIZE_RESULT_LENGTH / 2)))) ∧
    (((tr SIZE_OPCODE (SIZE_RESULT_LENGTH + 1)).drop 1).take
        (SIZE_RESULT_LENGTH / 2)).length = SIZE_RESULT_LENGTH / 2 ∧
    (((tr SIZE_OPCODE (SIZE_RESULT_LENGTH + 1)).drop 1).drop
        (SIZE_RESULT_LENGTH / 2)).length = SIZE_RESULT_LENGTH / 2 ∧
    SIZE_RESULT_LENGTH + 1 =
      1 + SIZE_RESULT_LENGTH / 2 + SIZE_RESULT_LENGTH / 2 := by
  refine ⟨rfl, ?_, ?_, by decide⟩
  · rw [List.length_take, List.length_drop, h]
    decide
  · rw [List.length_drop, List.length_drop, h]
    decide

/-- C3 witness: the split behaviour at the concrete stub whose SIZE
response encodes widths 16 and 8. -/
theorem C3_size_split_witness :
    (stub17 SIZE_OPCODE (SIZE_RESULT_LENGTH + 1)).length =
      SIZE_RESULT_LENGTH + 1 ∧
    get_mem_widths stub17 =
      ([⟨SIZE_OPCODE, SIZE_RESULT_LENGTH + 1⟩],
       (to_int (((stub17 SIZE_OPCODE (SIZE_RESULT_LENGTH + 1)).drop 1).take
          (SIZE_RESULT_LENGTH / 2)),
        to_int (((stub17 SIZE_OPCODE (SIZE_RESULT_LENGTH + 1)).drop 1).drop
          (SIZE_RESULT_LENGTH / 2)))) :=
  ⟨by decide, (C3_size_split stub17 (by decide)).1⟩

/-- C4 counterexample: the claim fixes the SIZE response at 25 bits
total, but the code requests `_SIZE_RESULT_LENGTH + 1 = 17` response
bits, and a transport offering the 25-bit stream (skip bit, 12-bit
field 16, 12-bit field 8) decodes to widths `(16, 128)`, not
`(16, 8)`. -/
theorem C4_counterexample :
    (get_mem_widths stub25).1 = [⟨SIZE_OPCODE, 17⟩] ∧ (17 : Nat) ≠ 25 ∧
    (get_mem_widths stub25).2 = (16, 128) ∧
    ((16, 128) : Nat × Nat) ≠ (16, 8) := by
  exact ⟨by decide, by decide, by decide, by decide⟩

/-- C4 (amended): a transport stubbed so that the SIZE response is 17
bits total — one skip bit equal to 0 followed by an 8-bit field
encoding 16 and an 8-bit field encoding 8 — makes width discovery
yield `(16, 8)` and initialization succeed with those widths. -/
theorem C4_amended_size17 :
    get_mem_widths stub17 = ([⟨SIZE_OPCODE, 17⟩], (16, 8)) ∧
    init stub17 = .ok ⟨16, 8⟩ := by
  exact ⟨by decide, rfl⟩

/-- C5: initialization succeeds exactly when both discovered widths
are nonzero; a zero width makes it fail with `ConfigurationError`,
and on success the instance carries the discovered widths. -/
theorem C5_init_nonzero (tr : Transport) :
    ((∃ m, init tr = .ok m) ↔
      ((get_mem_widths tr).2.1 ≠ 0 ∧ (get_mem_widths tr).2.2 ≠ 0)) ∧
    (((get_mem_widths tr).2.1 = 0 ∨ (get_mem_widths tr).2.2 = 0) →
      init tr = .error .ConfigurationError) ∧
    (∀ m, init tr = .ok m →
      m.address_width = (get_mem_widths tr).2.1 ∧
      m.data_width = (get_mem_widths tr).2.2) := by
  by_cases hc : (get_mem_widths tr).2.1 = 0 ∨ (get_mem_widths tr).2.2 = 0
  · have hinit : init tr = .error .ConfigurationError := by
      unfold init
      exact if_pos hc
    refine ⟨?_, fun _ => hinit, ?_⟩
    · constructor
      · rintro ⟨m, hm⟩
        rw [hinit] at hm
        exact absurd hm (by simp)
      · rintro ⟨h1, h2⟩
        exact absurd hc (by tauto)
    · intro m hm
      rw [hinit] at hm
      exact absurd hm (by simp)
  · have hinit : init tr =
        .ok ⟨(get_mem_widths tr).2.1, (get_mem_widths tr).2.2⟩ := by
      unfold init
      exact if_neg hc
    push_neg at hc
    refine ⟨?_, fun h => absurd h (by tauto), ?_⟩
    · constructor
      · intro _
        exact hc
      · intro _
        exact ⟨_, hinit⟩
    · intro m hm
      rw [hinit] at hm
      injection hm with hm
      rw [← hm]
      exact ⟨rfl, rfl⟩

/-- C5 witness: a stub with widths (16, 8) initializes successfully,
and a stub with all-zero widths fails with `ConfigurationError`. -/
theorem C5_init_nonzero_witness :
    (∃ m, init stub17 = Except.ok m) ∧
    init stubZero = Except.error XsError.ConfigurationError :=
  ⟨(C5_init_nonzero stub17).1.mpr ⟨by decide, by decide⟩,
   (C5_init_nonzero stubZero).2.1 (Or.inl (by decide))⟩

/-- C6: for every instance, transport, and data, a write whose address
is at least `2 ^ address_width` fails with `OutOfRange` and issues no
transport call. -/
theorem C6_write_address_range (m : XsMemIo) (tr : Transport) (addr : Int)
    (data : List WriteDatum) (h : (2 : Int) ^ m.address_width ≤ addr) :
    write m tr addr data = (m, [], .error .OutOfRange) := by
  have hfi : from_int addr m.address_width = .error .OutOfRange := by
    unfold from_int
    rw [if_pos (Or.inr h)]
  unfold write
  rw [hfi]

/-- C6 witness: `write(address=300, words=[0])` with `address_width=8`
fails with `OutOfRange` and no transport call occurs. -/
theorem C6_write_address_range_witness :
    (2 : Int) ^ mem8.address_width ≤ 300 ∧
    write mem8 stubTrue 300 [WriteDatum.int 0] =
      (mem8, [], Except.error XsError.OutOfRange) :=
  ⟨by decide,
   C6_write_address_range mem8 stubTrue 300 [WriteDatum.int 0] (by decide)⟩

/-- C9: the bus widths are discovered once at construction and are
immutable: after any sequence of reads and writes the instance is
unchanged and its widths are those returned by the SIZE transaction. -/
theorem C9_widths_immutable (tr : Transport) (m : XsMemIo)
    (ops : List (Transport × Op)) (h : init tr = .ok m) :
    run m ops = m ∧
    m.address_width = (get_mem_widths tr).2.1 ∧
    m.data_width = (get_mem_widths tr).2.2 := by
  refine ⟨run_const ops m, ?_⟩
  by_cases hc : (get_mem_widths tr).2.1 = 0 ∨ (get_mem_widths tr).2.2 = 0
  · rw [show init tr = .error .ConfigurationError from by unfold init; exact if_pos hc] at h
    exact absurd h (by simp)
  · rw [show init tr = .ok ⟨(get_mem_widths tr).2.1, (get_mem_widths tr).2.2⟩
        from by unfold init; exact if_neg hc] at h
    injection h with h2
    rw [← h2]
    exact ⟨rfl, rfl⟩

/-- C9 witness: a concrete instance built from the (16, 8) stub keeps
its widths across a read and a write. -/
theorem C9_widths_immutable_witness :
    run ⟨16, 8⟩ [(stubTrue, Op.rd 0 1), (stubTrue, Op.wr 0 [WriteDatum.int 1])] =
      (⟨16, 8⟩ : XsMemIo) ∧
    (⟨16, 8⟩ : XsMemIo).address_width = (get_mem_widths stub17).2.1 ∧
    (⟨16, 8⟩ : XsMemIo).data_width = (get_mem_widths stub17).2.2 :=
  C9_widths_immutable stub17 ⟨16, 8⟩
    [(stubTrue, Op.rd 0 1), (stubTrue, Op.wr 0 [WriteDatum.int 1])] rfl

/-- C1: for every initialized instance, in-range address and count ≥ 1,
read issues one transport call requesting `data_width * (count + 1)`
response bits, unconditionally discards the first `data_width` response
bits, and returns the remaining bits — a single word when `count = 1`,
otherwise the partition, in transmission order, into `count` words of
`data_width` bits, word i being response bits
`[data_width * (i + 1), data_width * (i + 2))`. -/
theorem C1_read_discard_partition (m : XsMemIo) (tr : Transport)
    (addr : Int) (count : Nat) (b : XsBitarray)
    (haw : 0 < m.address_width) (hdw : 0 < m.data_width) (hc : 1 ≤ count)
    (hb : from_int addr m.address_width = .ok b)
    (htr : ∀ p n, (tr p n).length = n) :
    read m tr addr count =
      (m, [⟨READ_OPCODE ++ b, m.data_width * (count + 1)⟩],
       .ok (if count = 1 then
              ReadResult.single
                ((tr (READ_OPCODE ++ b) (m.data_width * (count + 1))).drop
                  m.data_width)
            else
              ReadResult.many
                (grouper m.data_width
                  ((tr (READ_OPCODE ++ b) (m.data_width * (count + 1))).drop
                    m.data_width)))) ∧
    (grouper m.data_width
        ((tr (READ_OPCODE ++ b) (m.data_width * (count + 1))).drop
          m.data_width)).length = count ∧
    (∀ i, i < count →
      (grouper m.data_width
          ((tr (READ_OPCODE ++ b) (m.data_width * (count + 1))).drop
            m.data_width))[i]? =
        some (((tr (READ_OPCODE ++ b) (m.data_width * (count + 1))).drop
          (m.data_width * (i + 1))).take m.data_width)) := by
  have hlen : ((tr (READ_OPCODE ++ b) (m.data_width * (count + 1))).drop
      m.data_width).length = m.data_width * count := by
    rw [List.length_drop, htr, Nat.mul_succ]
    omega
  refine ⟨?_, grouper_length _ _ hdw _ hlen, ?_⟩
  · by_cases h1 : count = 1
    · subst h1
      unfold read
      rw [hb]
      simp
    · unfold read
      rw [hb]
      simp [h1]
  · intro i hi
    have harr : m.data_width + m.data_width * i = m.data_width * (i + 1) := by
      rw [Nat.mul_succ]
      omega
    rw [grouper_get m.data_width count hdw _ hlen i hi, List.drop_drop, harr]

/-- C1 witness: with a 2-bit data bus and the stub response
[garbage, W1, W2, W3], `read(0, 3)` requests 8 response bits and
returns exactly [W1, W2, W3]. -/
theorem C1_read_discard_partition_witness :
    read ⟨8, 2⟩ (padTo respExample) 0 3 =
      (⟨8, 2⟩, [⟨READ_OPCODE ++ from_int_bits 0 8, 8⟩],
       .ok (.many [[false, true], [true, false], [false, false]])) := by
  have h := C1_read_discard_partition ⟨8, 2⟩ (padTo respExample) 0 3
    (from_int_bits 0 8) (by decide) (by decide) (by decide) rfl
    (fun p n => padTo_length respExample p n)
  exact h.1.trans rfl

/-- C2: for every initialized instance, in-range address, and list of
integer words each fitting in `data_width` bits, write issues exactly
one transport call whose payload is the 2-bit WRITE opcode, the address
in `address_width` bits, and the words encoded to `data_width` bits
each, concatenated in order, with `num_result_bits = 0`. -/
theorem C2_write_frame (m : XsMemIo) (tr : Transport) (addr : Int)
    (words : List Int) (b : XsBitarray)
    (haw : 0 < m.address_width)
    (hb : from_int addr m.address_width = .ok b)
    (hw : ∀ w ∈ words, ¬(w < 0 ∨ (2 : Int) ^ m.data_width ≤ w)) :
    write m tr addr (words.map WriteDatum.int) =
      (m, [⟨WRITE_OPCODE ++ b ++
        (words.map (fun w => from_int_bits w m.data_width)).flatten, 0⟩],
       .ok ()) := by
  have hloop := writeLoop_ok_ints m.data_width words (WRITE_OPCODE ++ b) hw
  have hblen : b.length = m.address_width := by
    rw [from_int_ok_eq hb, from_int_bits_length]
  have hlen : (WRITE_OPCODE ++ b ++
      (words.map (fun w => from_int_bits w m.data_width)).flatten).length >
      WRITE_OPCODE.length := by
    rw [List.length_append, List.length_append, hblen]
    omega
  unfold write
  cases hfi : from_int addr m.address_width with
  | error e =>
      rw [hfi] at hb
      exact absurd hb (by simp)
  | ok b2 =>
      rw [hfi] at hb
      injection hb with hb2
      subst hb2
      simp only []
      rw [hloop]
      simp only []
      rw [if_pos hlen]

/-- C2 witness: `write(address=5, words=[7])` with widths (8, 8) sends
one transport call with an 18-bit payload — WRITE opcode (0,1), then
address 5, then datum 7, bit 0 first — and requests 0 response bits. -/
theorem C2_write_frame_witness :
    write mem8 stubTrue 5 ([7].map WriteDatum.int) =
      (mem8,
       [⟨[false, true,
          true, false, true, false, false, false, false, false,
          true, true, true, false, false, false, false, false], 0⟩],
       .ok ()) ∧
    (WRITE_OPCODE ++ from_int_bits 5 8 ++
      ([(7 : Int)].map (fun w => from_int_bits w 8)).flatten).length = 18 := by
  constructor
  · have h := C2_write_frame mem8 stubTrue 5 [7] (from_int_bits 5 8)
      (by decide) rfl (by decide)
    exact h.trans rfl
  · decide

/-- C7 counterexample: the claim requires `read` to reject `count < 1`
before any transport exchange, but `read(5, 0)` on an (8, 8) instance
issues one transport call and returns the empty word list without
error. -/
theorem C7_counterexample :
    (read mem8 stubTrue 5 0).2.1.length = 1 ∧
    (read mem8 stubTrue 5 0).2.2 = Except.ok (ReadResult.many []) := by
  exact ⟨by decide, rfl⟩

/-- C7 (amended): read validates only the address before the transport
call — it fails with `OutOfRange` and performs no transport exchange
when `address < 0` or `address ≥ 2 ^ address_width` — while `count` is
not validated: whenever the address encodes, read issues exactly one
transport exchange for every count, including `count = 0`. -/
theorem C7_amended_read_validation (m : XsMemIo) (tr : Transport)
    (addr : Int) (count : Nat) :
    ((addr < 0 ∨ (2 : Int) ^ m.address_width ≤ addr) →
      read m tr addr count = (m, [], .error .OutOfRange)) ∧
    (∀ b, from_int addr m.address_width = .ok b →
      (read m tr addr count).2.1 =
        [⟨READ_OPCODE ++ b, m.data_width * (count + 1)⟩]) := by
  constructor
  · intro h
    have hfi : from_int addr m.address_width = .error .OutOfRange := by
      unfold from_int
      rw [if_pos h]
    unfold read
    rw [hfi]
  · intro b hb
    unfold read
    cases hfi : from_int addr m.address_width with
    | error e =>
        rw [hfi] at hb
        exact absurd hb (by simp)
    | ok b2 =>
        rw [hfi] at hb
        injection hb with hb2
        subst hb2
        simp only []
        split <;> rfl

/-- C7 amended witness: address 300 is rejected with no transport call;
with address 5 a `read` of count 2 issues exactly one call. -/
theorem C7_amended_read_validation_witness :
    read mem8 stubTrue 300 1 = (mem8, [], Except.error XsError.OutOfRange) ∧
    (read mem8 stubTrue 5 2).2.1 =
      [⟨READ_OPCODE ++ from_int_bits 5 8, mem8.data_width * (2 + 1)⟩] :=
  ⟨(C7_amended_read_validation mem8 stubTrue 300 1).1 (by decide),
   (C7_amended_read_validation mem8 stubTrue 5 2).2 (from_int_bits 5 8) rfl⟩

/-- C8 counterexample: the claim requires a zero-length write to fail
as a contract violation, but `write(5, [])` on an (8, 8) instance
succeeds: the payload `WRITE_OPCODE ++ address` already has 10 > 2
bits, the assertion passes, and one transport call is issued. -/
theorem C8_counterexample :
    write mem8 stubTrue 5 [] =
      (mem8, [⟨WRITE_OPCODE ++ from_int_bits 5 8, 0⟩], Except.ok ()) ∧
    (write mem8 stubTrue 5 []).2.1.length = 1 := by
  exact ⟨rfl, by decide⟩

/-- C8 (amended): a zero-length write is not rejected — with a nonzero
address width and an encodable address it sends `WRITE_OPCODE ++
address` with no data — while write does fail with `OutOfRange`, before
any transport call, whenever some supplied integer word does not fit in
`data_width` bits. -/
theorem C8_amended_write_validation (m : XsMemIo) (tr : Transport)
    (addr : Int) (data : List WriteDatum) :
    (∀ b, 0 < m.address_width → from_int addr m.address_width = .ok b →
      write m tr addr [] = (m, [⟨WRITE_OPCODE ++ b, 0⟩], .ok ())) ∧
    ((∃ w, WriteDatum.int w ∈ data ∧ (w < 0 ∨ (2 : Int) ^ m.data_width ≤ w)) →
      write m tr addr data = (m, [], .error .OutOfRange)) := by
  constructor
  · intro b haw hb
    have hblen : b.length = m.address_width := by
      rw [from_int_ok_eq hb, from_int_bits_length]
    have hlen : (WRITE_OPCODE ++ b).length > WRITE_OPCODE.length := by
      rw [List.length_append, hblen]
      omega
    unfold write
    cases hfi : from_int addr m.address_width with
    | error e =>
        rw [hfi] at hb
        exact absurd hb (by simp)
    | ok b2 =>
        rw [hfi] at hb
        injection hb with hb2
        subst hb2
        simp only [writeLoop]
        rw [if_pos hlen]
  · intro h
    unfold write
    cases hfi : from_int addr m.address_width with
    | error e =>
        rw [from_int_error_eq hfi]
    | ok b =>
        simp only []
        rw [writeLoop_error m.data_width data (WRITE_OPCODE ++ b) h]

/-- C8 amended witness: the empty write at address 5 succeeds with one
10-bit payload call, and a write containing the integer word 256
(too wide for 8 data bits) fails with `OutOfRange` and no call. -/
theorem C8_amended_write_validation_witness :
    write mem8 stubTrue 5 [] =
      (mem8, [⟨WRITE_OPCODE ++ from_int_bits 5 8, 0⟩], Except.ok ()) ∧
    write mem8 stubTrue 5 [WriteDatum.int 7, WriteDatum.int 256] =
      (mem8, [], Except.error XsError.OutOfRange) :=
  ⟨(C8_amended_write_validation mem8 stubTrue 5 []).1 (from_int_bits 5 8)
      (by decide) rfl,
   (C8_amended_write_validation mem8 stubTrue 5
      [WriteDatum.int 7, WriteDatum.int 256]).2
      ⟨256, by simp, by decide⟩⟩

/-- C10: the four opcodes are the pairwise-distinct 2-bit vectors
NOP = (0,0), READ = (1,1), WRITE = (0,1), SIZE = (1,0) with bit 0
first; every transport call of `read` has a payload beginning with the
READ opcode, every call of `write` begins with the WRITE opcode, and
the SIZE request payload is exactly the SIZE opcode. -/
theorem C10_opcodes :
    NOP_OPCODE = [false, false] ∧ READ_OPCODE = [true, true] ∧
    WRITE_OPCODE = [false, true] ∧ SIZE_OPCODE = [true, false] ∧
    (NOP_OPCODE ≠ READ_OPCODE ∧ NOP_OPCODE ≠ WRITE_OPCODE ∧
     NOP_OPCODE ≠ SIZE_OPCODE ∧ READ_OPCODE ≠ WRITE_OPCODE ∧
     READ_OPCODE ≠ SIZE_OPCODE ∧ WRITE_OPCODE ≠ SIZE_OPCODE) ∧
    (∀ (m : XsMemIo) (tr : Transport) (addr : Int) (count : Nat),
      ∀ c ∈ (read m tr addr count).2.1, c.payload.take 2 = READ_OPCODE) ∧
    (∀ (m : XsMemIo) (tr : Transport) (addr : Int) (data : List WriteDatum),
      ∀ c ∈ (write m tr addr data).2.1, c.payload.take 2 = WRITE_OPCODE) ∧
    (∀ tr : Transport, ∀ c ∈ (get_mem_widths tr).1, c.payload = SIZE_OPCODE) := by
  refine ⟨by decide, by decide, by decide, by decide, by decide, ?_, ?_, ?_⟩
  · intro m tr addr count c hc
    rcases read_calls m tr addr count with h | ⟨b, h⟩
    · rw [h] at hc
      exact absurd hc (by simp)
    · rw [h] at hc
      have hce : c = ⟨READ_OPCODE ++ b, m.data_width * (count + 1)⟩ := by
        simpa using hc
      rw [hce]
      have hR : READ_OPCODE = [true, true] := by decide
      show (READ_OPCODE ++ b).take 2 = READ_OPCODE
      rw [hR]
      rfl
  · intro m tr addr data c hc
    rcases write_calls m tr addr data with h | ⟨b, t, h⟩
    · rw [h] at hc
      exact absurd hc (by simp)
    · rw [h] at hc
      have hce : c = ⟨(WRITE_OPCODE ++ b) ++ t, 0⟩ := by
        simpa using hc
      rw [hce]
      have hW : WRITE_OPCODE = [false, true] := by decide
      show ((WRITE_OPCODE ++ b) ++ t).take 2 = WRITE_OPCODE
      rw [List.append_assoc, hW]
      rfl
  · intro tr c hc
    have hce : c = ⟨SIZE_OPCODE, SIZE_RESULT_LENGTH + 1⟩ := by
      simpa [get_mem_widths] using hc
    rw [hce]

/-- C10 witness: the single call of a concrete read has a payload whose
first two bits are the READ opcode. -/
theorem C10_opcodes_witness :
    (⟨READ_OPCODE ++ from_int_bits 0 8, 16⟩ : SendRcvCall) ∈
      (read mem8 stubTrue 0 1).2.1 ∧
    (⟨READ_OPCODE ++ from_int_bits 0 8, 16⟩ : SendRcvCall).payload.take 2 =
      READ_OPCODE :=
  ⟨by decide,
   C10_opcodes.2.2.2.2.2.1 mem8 stubTrue 0 1
     ⟨READ_OPCODE ++ from_int_bits 0 8, 16⟩ (by decide)⟩

end XSTOOLs
